import Mathlib

/-!
Shallow embedding of the operation store of the zkSync `eth_sender` test
harness (`core/bin/zksync_eth_sender/src/tests/mock.rs`), together with the
pieces of configuration relevant to the gas-price escalation policy.

Conventions of the embedding:
* `H256` transaction hashes and `U256` gas prices are modelled as `Nat`
  (only equality / ordering is ever used on them in the mock).
* `i64` fields are modelled as `Int`; the `as u64` casts in the source are
  modelled as `% 2^64` followed by `toNat`.
* A Rust panic / failed `assert!` / failed `expect` is modelled by the
  function returning `none`.
* Methods that mutate the database take the state and return the new state
  (wrapped in `Option` when the source can panic).
-/

/-- Action kinds of aggregated operations (`AggregatedActionType` in
`zksync_types`; the closed set of rollup actions). -/
inductive AggregatedActionType where
  | commitBlocks
  | createProofBlocks
  | publishProofBlocksOnchain
  | executeBlocks
deriving DecidableEq, Repr

/-- An aggregated (logical) operation: an action kind together with the
block range it covers.  In the source this is an enum with payloads exposing
`get_action_type()` and `get_block_range()`; the embedding keeps exactly
those two observations. -/
structure AggregatedOperation where
  action_type : AggregatedActionType
  block_range : Nat × Nat
deriving DecidableEq, Repr

def AggregatedOperation.get_block_range (op : AggregatedOperation) : Nat × Nat :=
  op.block_range

def AggregatedOperation.get_action_type (op : AggregatedOperation) : AggregatedActionType :=
  op.action_type

/-- Structure `ETHOperation` from `zksync_types::ethereum`, with the fields used by the
mock database. -/
structure ETHOperation where
  id : Int
  op_type : AggregatedActionType
  op : Option (Int × AggregatedOperation)
  nonce : Int
  last_deadline_block : Nat
  last_used_gas_price : Nat
  used_tx_hashes : List Nat
  encoded_tx_data : List Nat
  confirmed : Bool
  final_hash : Option Nat
deriving DecidableEq, Repr

/-- Record `ETHParams` from `zksync_storage::ethereum::records`. -/
structure ETHParams where
  id : Bool
  nonce : Int
  gas_price_limit : Int
  average_gas_price : Option Int
  last_committed_block : Int
  last_verified_block : Int
  last_executed_block : Int
deriving DecidableEq, Repr

/-- Response `InsertedOperationResponse` returned by `save_new_eth_tx`. -/
structure InsertedOperationResponse where
  id : Int
  nonce : Int
deriving DecidableEq, Repr

/-- The state of `MockDatabase`: stored Ethereum operations, unprocessed
aggregated operations, and the protocol parameters. -/
structure MockDatabase where
  eth_operations : List ETHOperation
  unprocessed_operations : List (Int × AggregatedOperation)
  eth_parameters : ETHParams
deriving DecidableEq, Repr

namespace MockDatabase

/-- Source `MockDatabase::with_restorable_state`. -/
def with_restorable_state (eth_operations : List ETHOperation)
    (eth_parameters : ETHParams) : MockDatabase :=
  { eth_operations := eth_operations
    eth_parameters := eth_parameters
    unprocessed_operations := [] }

/-- Function `default_eth_parameters()` from the mock module. -/
def default_eth_parameters : ETHParams :=
  { id := true
    nonce := 0
    gas_price_limit := 400000000000
    average_gas_price := none
    last_committed_block := 0
    last_verified_block := 0
    last_executed_block := 0 }

/-- Conversion `i64::try_from` on a `U256` value: succeeds exactly when the value fits
into a signed 64-bit integer; a failure makes the caller's `expect` panic. -/
def i64_try_from_u256 (v : Nat) : Option Int :=
  if v ≤ 2 ^ 63 - 1 then some (Int.ofNat v) else none

/-- Source `MockDatabase::update_gas_price_params`: writes the gas price limit and
the smoothed average gas price into the stored parameters; `none` models the
`expect` panic when a value does not fit into `i64`. -/
def update_gas_price_params (db : MockDatabase) (gas_price_limit : Nat)
    (average_gas_price : Nat) : Option MockDatabase :=
  match i64_try_from_u256 gas_price_limit, i64_try_from_u256 average_gas_price with
  | some limit, some avg =>
      some { db with
        eth_parameters :=
          { db.eth_parameters with
            gas_price_limit := limit
            average_gas_price := some avg } }
  | _, _ => none

/-- Source `MockDatabase::load_unconfirmed_operations`: the stored operations that
are not confirmed, in stored order (the source filters a clone of the list;
`&self` access leaves the state untouched). -/
def load_unconfirmed_operations (db : MockDatabase) : List ETHOperation :=
  db.eth_operations.filter (fun eth_op => !eth_op.confirmed)

/-- Source `MockDatabase::save_new_eth_tx`: appends a fresh operation whose `id` and
`nonce` are the current number of stored operations; `deadline_block as u64`
is the 2^64-wrapping cast of the `i64` argument. -/
def save_new_eth_tx (db : MockDatabase) (op_type : AggregatedActionType)
    (op : Option (Int × AggregatedOperation)) (deadline_block : Int)
    (used_gas_price : Nat) (encoded_tx_data : List Nat) :
    MockDatabase × InsertedOperationResponse :=
  let id : Int := Int.ofNat db.eth_operations.length
  let nonce : Nat := db.eth_operations.length
  let eth_operation : ETHOperation :=
    { id := id
      op_type := op_type
      op := op
      nonce := Int.ofNat nonce
      last_deadline_block := (deadline_block % (2 ^ 64 : Int)).toNat
      last_used_gas_price := used_gas_price
      used_tx_hashes := []
      encoded_tx_data := encoded_tx_data
      confirmed := false
      final_hash := none }
  ({ db with eth_operations := db.eth_operations ++ [eth_operation] },
   { id := id, nonce := Int.ofNat nonce })

/-- Mutate the first element of the list satisfying `p` (the shape of
`iter_mut().find(p)` followed by a mutation, and of the mock's
find-mutate-break loop); `none` when no element satisfies `p`. -/
def modifyFirst (p : ETHOperation → Bool) (f : ETHOperation → ETHOperation) :
    List ETHOperation → Option (List ETHOperation)
  | [] => none
  | e :: rest =>
      if p e then some (f e :: rest)
      else (modifyFirst p f rest).map (fun rest' => e :: rest')

/-- Source `MockDatabase::add_hash_entry`: push `hash` onto the hash history of the
first stored operation with the given id that is not confirmed; `none`
models the `source panic "Attempt to update tx that is not unconfirmed"`. -/
def add_hash_entry (db : MockDatabase) (eth_op_id : Int) (hash : Nat) :
    Option MockDatabase :=
  (modifyFirst (fun eth_op => eth_op.id == eth_op_id && !eth_op.confirmed)
      (fun eth_op => { eth_op with used_tx_hashes := eth_op.used_tx_hashes ++ [hash] })
      db.eth_operations).map
    (fun ops => { db with eth_operations := ops })

/-- Source `MockDatabase::update_eth_tx`: set the deadline block and gas price of
the first stored operation with the given id that is not confirmed; `none`
models the `source panic "Attempt to update tx that is not unconfirmed"`. -/
def update_eth_tx (db : MockDatabase) (eth_op_id : Int)
    (new_deadline_block : Int) (new_gas_value : Nat) : Option MockDatabase :=
  (modifyFirst (fun eth_op => eth_op.id == eth_op_id && !eth_op.confirmed)
      (fun eth_op =>
        { eth_op with
          last_deadline_block := (new_deadline_block % (2 ^ 64 : Int)).toNat
          last_used_gas_price := new_gas_value })
      db.eth_operations).map
    (fun ops => { db with eth_operations := ops })

/-- Source `MockDatabase::confirm_operation`: walk the stored operations, and on the
first one whose hash history contains `hash` set `confirmed := true` and
`final_hash := some hash`, then stop; `none` models the failing
`assert!(op_idx.is_some(), ...)` when no stored operation's history contains
the hash. -/
def confirm_operation (db : MockDatabase) (hash : Nat) : Option MockDatabase :=
  (modifyFirst (fun operation => operation.used_tx_hashes.contains hash)
      (fun operation => { operation with confirmed := true, final_hash := some hash })
      db.eth_operations).map
    (fun ops => { db with eth_operations := ops })

/-- Source `MockDatabase::load_stats` (the three progress counters). -/
def load_stats (db : MockDatabase) : Int × Int × Int :=
  (db.eth_parameters.last_committed_block,
   db.eth_parameters.last_verified_block,
   db.eth_parameters.last_executed_block)

/-- The predecessor search of `is_previous_operation_confirmed`: Rust's
`iter().find(...)` where the closure unwraps each stored operation's `op`
field.  `none` models the abort of that unwrap; `some none` means no stored
operation's block range ends at `first_block - 1`; `some (some e)` is the
first one whose range does. -/
def findPrev (first_block : Nat) :
    List ETHOperation → Option (Option ETHOperation)
  | [] => some none
  | eth_operation :: rest =>
      match eth_operation.op with
      | none => none
      | some o =>
          if (o.2.get_block_range).2 = first_block - 1 then
            some (some eth_operation)
          else findPrev first_block rest

/-- Source `MockDatabase::is_previous_operation_confirmed`: unwraps `op.op` (abort
when absent, modelled as `none`), returns `true` immediately when the block
range starts at block 1, and otherwise reports the `confirmed` flag of the
first stored operation whose block range ends at `first_block - 1` (`false`
when there is none). -/
def is_previous_operation_confirmed (db : MockDatabase) (op : ETHOperation) :
    Option Bool :=
  match op.op with
  | none => none
  | some o =>
      let first_block := (o.2.get_block_range).1
      if first_block = 1 then some true
      else
        match findPrev first_block db.eth_operations with
        | none => none
        | some none => some false
        | some (some operation) => some operation.confirmed

end MockDatabase

namespace MockDatabase

/-- One store mutation issued to the mock database by the sender logic:
the four mutating methods of `DatabaseInterface` exercised by the claims. -/
inductive DBOp where
  | save (op_type : AggregatedActionType) (op : Option (Int × AggregatedOperation))
      (deadline_block : Int) (used_gas_price : Nat) (encoded_tx_data : List Nat)
  | addHash (eth_op_id : Int) (hash : Nat)
  | update (eth_op_id : Int) (new_deadline_block : Int) (new_gas_value : Nat)
  | confirm (hash : Nat)
deriving DecidableEq, Repr

/-- Apply one store mutation to the database; `none` propagates a panic of
the underlying method. -/
def applyOp (db : MockDatabase) : DBOp → Option MockDatabase
  | .save op_type op deadline_block used_gas_price encoded_tx_data =>
      some (db.save_new_eth_tx op_type op deadline_block used_gas_price encoded_tx_data).1
  | .addHash eth_op_id hash => db.add_hash_entry eth_op_id hash
  | .update eth_op_id new_deadline_block new_gas_value =>
      db.update_eth_tx eth_op_id new_deadline_block new_gas_value
  | .confirm hash => db.confirm_operation hash

/-- Run a sequence of store mutations from a starting state; `none` as soon
as one of them panics. -/
def runOps (db : MockDatabase) : List DBOp → Option MockDatabase
  | [] => some db
  | o :: rest => (applyOp db o).bind (fun db' => runOps db' rest)

end MockDatabase

/-- Modelled from the spec: the declared predecessor-action dependency
between rollup action kinds.  The dependency table itself is not among the
sources under test (only the mock store is); the spec declares one
dependency, "an execute-type action depends on the verify-type action
covering the immediately preceding block range". -/
def declaredPredecessor : AggregatedActionType → Option AggregatedActionType
  | .executeBlocks => some .publishProofBlocksOnchain
  | _ => none

/-- Modelled from the spec: the gas price used for a resubmission, "multiply
the previous price by a fixed scale factor, capped at the ceiling".  The
escalation routine itself is not among the sources under test; the scale
factor and ceiling it consumes come from the harness configuration built by
`build_eth_sender`.  Prices and the factor are modelled as rationals. -/
def scale_gas_price (previous : ℚ) (scale_factor : ℚ) (ceiling : ℚ) : ℚ :=
  min (previous * scale_factor) ceiling

/-- Value `scale_factor: 1.0f64` from the `GasLimit` configuration that
`build_eth_sender` installs in the mock harness. -/
def build_eth_sender_scale_factor : ℚ := 1

/-- Value `default: 1000` (the gas price limit) from the `GasLimit`
configuration that `build_eth_sender` installs in the mock harness. -/
def build_eth_sender_gas_price_limit : ℚ := 1000

/-- The map `l.map (fun e => (e.nonce, e.id))` of a stored-operation list is
the identity indexing `0, 1, ..., length - 1`: nonces and ids are exactly
the contiguous range of positions. -/
def noncesIndexed (l : List ETHOperation) : Prop :=
  l.map (fun e => (e.nonce, e.id)) =
    (List.range l.length).map (fun k => (Int.ofNat k, Int.ofNat k))

/-- Builder for concrete `ETHOperation` values used in concrete
evaluations (deadline, gas price and call data are irrelevant there). -/
def sampleOp (id : Int) (kind : AggregatedActionType)
    (payload : Option (Int × AggregatedOperation)) (hashes : List Nat)
    (conf : Bool) (final : Option Nat) : ETHOperation :=
  { id := id, op_type := kind, op := payload, nonce := id, last_deadline_block := 0,
    last_used_gas_price := 0, used_tx_hashes := hashes, encoded_tx_data := [],
    confirmed := conf, final_hash := final }

/-- A verify-type aggregated operation covering blocks 1..4. -/
def aggVerify14 : AggregatedOperation :=
  { action_type := .publishProofBlocksOnchain, block_range := (1, 4) }

/-- A verify-type aggregated operation covering blocks 1..9. -/
def aggVerify19 : AggregatedOperation :=
  { action_type := .publishProofBlocksOnchain, block_range := (1, 9) }

/-- A commit-type aggregated operation covering blocks 1..4. -/
def aggCommit14 : AggregatedOperation :=
  { action_type := .commitBlocks, block_range := (1, 4) }

/-- An execute-type aggregated operation covering blocks 5..6. -/
def aggExec56 : AggregatedOperation :=
  { action_type := .executeBlocks, block_range := (5, 6) }

/-- An execute-type aggregated operation covering blocks 1..6. -/
def aggExec16 : AggregatedOperation :=
  { action_type := .executeBlocks, block_range := (1, 6) }

/-- An execute operation whose block range starts at block 5. -/
def opExec56 : ETHOperation := sampleOp 10 .executeBlocks (some (7, aggExec56)) [] false none

/-- An execute operation whose block range starts at block 1. -/
def opExec16 : ETHOperation := sampleOp 11 .executeBlocks (some (8, aggExec16)) [] false none

/-- An operation with no logical back-reference (`op = None`). -/
def opNoRef : ETHOperation := sampleOp 9 .commitBlocks none [] false none

/-- An unconfirmed verify operation over blocks 1..4. -/
def opVerifyA : ETHOperation := sampleOp 0 .publishProofBlocksOnchain (some (0, aggVerify14)) [] false none

/-- A confirmed verify operation over blocks 1..4. -/
def opVerifyB : ETHOperation := sampleOp 1 .publishProofBlocksOnchain (some (1, aggVerify14)) [] true none

/-- A confirmed verify operation over blocks 1..9 (misses block 4). -/
def opVerifyFar : ETHOperation := sampleOp 2 .publishProofBlocksOnchain (some (2, aggVerify19)) [] true none

/-- A confirmed commit operation over blocks 1..4. -/
def opCommitC : ETHOperation := sampleOp 0 .commitBlocks (some (0, aggCommit14)) [] true none

/-- A stored operation with `op = None` (as restored state may contain). -/
def badOp : ETHOperation := sampleOp 3 .commitBlocks none [] false none

/-- An operation whose hash history contains hashes 4 and 5. -/
def opH5 : ETHOperation := sampleOp 0 .commitBlocks none [4, 5] false none

/-- An unconfirmed operation with id 0 and empty hash history. -/
def opW0 : ETHOperation := sampleOp 0 .commitBlocks none [] false none

/-- A confirmed operation with id 1 and hash history `[9]`. -/
def opW1 : ETHOperation := sampleOp 1 .commitBlocks none [9] true (some 9)

/-- An unconfirmed operation with id 1 and empty hash history. -/
def opT1 : ETHOperation := sampleOp 1 .commitBlocks none [] false none

/-- Database holding an unconfirmed and a confirmed verify operation, both
ending at block 4. -/
def dbC3 : MockDatabase :=
  MockDatabase.with_restorable_state [opVerifyA, opVerifyB] MockDatabase.default_eth_parameters

/-- Database holding one confirmed commit operation ending at block 4. -/
def dbC3k : MockDatabase :=
  MockDatabase.with_restorable_state [opCommitC] MockDatabase.default_eth_parameters

/-- Database holding one confirmed verify operation ending at block 9. -/
def dbC3miss : MockDatabase :=
  MockDatabase.with_restorable_state [opVerifyFar] MockDatabase.default_eth_parameters

/-- Database where a matching operation precedes one with `op = None`. -/
def dbC10ok : MockDatabase :=
  MockDatabase.with_restorable_state [opVerifyB, badOp] MockDatabase.default_eth_parameters

/-- Database whose only stored operation has `op = None`. -/
def dbC10bad : MockDatabase :=
  MockDatabase.with_restorable_state [badOp] MockDatabase.default_eth_parameters

/-- Database with an unconfirmed id-0 operation and a confirmed id-1 one. -/
def dbW : MockDatabase :=
  MockDatabase.with_restorable_state [opW0, opW1] MockDatabase.default_eth_parameters

/-- Result of `add_hash_entry 0 3` on `dbW`. -/
def dbW' : MockDatabase := (MockDatabase.add_hash_entry dbW 0 3).get (by decide)

/-- Database with an empty-history operation and one containing hash 5. -/
def dbC5 : MockDatabase :=
  MockDatabase.with_restorable_state [opNoRef, opH5] MockDatabase.default_eth_parameters

/-- Database with unconfirmed operations of ids 0 and 1. -/
def dbC6 : MockDatabase :=
  MockDatabase.with_restorable_state [opW0, opT1] MockDatabase.default_eth_parameters

/-- A store history: two insertions, a hash entry, and a confirmation. -/
def opsC1 : List MockDatabase.DBOp :=
  [.save .commitBlocks none 10 100 [1, 2], .save .publishProofBlocksOnchain none 11 100 [],
   .addHash 0 5, .confirm 5]

/-- The database reached by running `opsC1` from the empty store. -/
def dbC1w : MockDatabase :=
  (MockDatabase.runOps
    (MockDatabase.with_restorable_state [] MockDatabase.default_eth_parameters) opsC1).get
    (by decide)

/-- A store history that confirms an operation via hash 1 after giving it
hashes 1 and 2. -/
def opsC2 : List MockDatabase.DBOp :=
  [.save .commitBlocks none 0 0 [], .addHash 0 1, .addHash 0 2, .confirm 1]

/-- The database reached by running `opsC2` from the empty store: its one
operation is confirmed with `final_hash = some 1`. -/
def dbC2 : MockDatabase :=
  (MockDatabase.runOps
    (MockDatabase.with_restorable_state [] MockDatabase.default_eth_parameters) opsC2).get
    (by decide)

/-- The database after a second confirmation of `dbC2` via hash 2. -/
def dbC2' : MockDatabase := (MockDatabase.applyOp dbC2 (.confirm 2)).get (by decide)

namespace MockDatabase

theorem modifyFirst_append (p : ETHOperation → Bool) (f : ETHOperation → ETHOperation)
    (pre post : List ETHOperation) (e : ETHOperation)
    (hpre : ∀ x ∈ pre, p x = false) (he : p e = true) :
    modifyFirst p f (pre ++ e :: post) = some (pre ++ f e :: post) := by
  induction pre with
  | nil => simp [modifyFirst, he]
  | cons a t ih =>
      have ha : p a = false := hpre a (List.mem_cons_self a t)
      have ih' := ih (fun x hx => hpre x (List.mem_cons_of_mem a hx))
      simp [modifyFirst, ha, ih']

theorem modifyFirst_eq_none (p : ETHOperation → Bool) (f : ETHOperation → ETHOperation)
    (l : List ETHOperation) (h : ∀ x ∈ l, p x = false) :
    modifyFirst p f l = none := by
  induction l with
  | nil => rfl
  | cons a t ih =>
      have ha : p a = false := h a (List.mem_cons_self a t)
      have ih' := ih (fun x hx => h x (List.mem_cons_of_mem a hx))
      simp [modifyFirst, ha, ih']

theorem modifyFirst_map_eq {γ : Type} (g : ETHOperation → γ) (p : ETHOperation → Bool)
    (f : ETHOperation → ETHOperation) (l l' : List ETHOperation)
    (h : modifyFirst p f l = some l') (hf : ∀ e, g (f e) = g e) :
    l'.map g = l.map g := by
  induction l generalizing l' with
  | nil => simp [modifyFirst] at h
  | cons a t ih =>
      unfold modifyFirst at h
      by_cases hp : p a
      · rw [if_pos hp] at h
        injection h with h
        subst h
        simp [hf]
      · rw [if_neg hp] at h
        cases hl : modifyFirst p f t with
        | none => rw [hl] at h; simp at h
        | some t' =>
            rw [hl] at h
            simp at h
            subst h
            simp [ih t' hl]

theorem modifyFirst_get (p : ETHOperation → Bool) (f : ETHOperation → ETHOperation)
    (l l' : List ETHOperation) (i : Nat) (e : ETHOperation)
    (h : modifyFirst p f l = some l') (hget : l.get? i = some e) :
    l'.get? i = some e ∨ (p e = true ∧ l'.get? i = some (f e)) := by
  induction l generalizing l' i with
  | nil => simp at hget
  | cons a t ih =>
      unfold modifyFirst at h
      by_cases hp : p a
      · rw [if_pos hp] at h
        injection h with h
        subst h
        cases i with
        | zero =>
            simp at hget
            subst hget
            exact Or.inr ⟨hp, by simp⟩
        | succ n => exact Or.inl (by simpa using hget)
      · rw [if_neg hp] at h
        cases hl : modifyFirst p f t with
        | none => rw [hl] at h; simp at h
        | some t' =>
            rw [hl] at h
            simp at h
            subst h
            cases i with
            | zero =>
                simp at hget
                subst hget
                exact Or.inl (by simp)
            | succ n =>
                have hrec := ih t' n hl (by simpa using hget)
                rcases hrec with h1 | ⟨hpe, h2⟩
                · exact Or.inl (by simpa using h1)
                · exact Or.inr ⟨hpe, by simpa using h2⟩

theorem findPrev_skip (first_block : Nat) (pre rest : List ETHOperation)
    (hpre : ∀ x ∈ pre, ∃ px, x.op = some px ∧ (px.2.get_block_range).2 ≠ first_block - 1) :
    findPrev first_block (pre ++ rest) = findPrev first_block rest := by
  induction pre with
  | nil => rfl
  | cons a t ih =>
      obtain ⟨pa, hpa, hne⟩ := hpre a (List.mem_cons_self a t)
      have ih' := ih (fun x hx => hpre x (List.mem_cons_of_mem a hx))
      simp [findPrev, hpa, hne, ih']

theorem findPrev_cons_found (first_block : Nat) (e : ETHOperation)
    (rest : List ETHOperation) (pe : Int × AggregatedOperation) (hpe : e.op = some pe)
    (hend : (pe.2.get_block_range).2 = first_block - 1) :
    findPrev first_block (e :: rest) = some (some e) := by
  simp [findPrev, hpe, hend]

theorem findPrev_all_miss (first_block : Nat) (l : List ETHOperation)
    (h : ∀ x ∈ l, ∃ px, x.op = some px ∧ (px.2.get_block_range).2 ≠ first_block - 1) :
    findPrev first_block l = some none := by
  induction l with
  | nil => rfl
  | cons a t ih =>
      obtain ⟨pa, hpa, hne⟩ := h a (List.mem_cons_self a t)
      have ih' := ih (fun x hx => h x (List.mem_cons_of_mem a hx))
      simp [findPrev, hpa, hne, ih']

end MockDatabase

namespace MockDatabase

theorem applyOp_indexed (s s' : MockDatabase) (o : DBOp) (h : applyOp s o = some s')
    (hs : noncesIndexed s.eth_operations) : noncesIndexed s'.eth_operations := by
  cases o with
  | save t op ddl gas data =>
      simp only [applyOp] at h
      injection h with h
      subst h
      unfold noncesIndexed at hs ⊢
      simp [save_new_eth_tx, List.range_succ, hs]
  | addHash eth_op_id hash =>
      simp only [applyOp, add_hash_entry] at h
      rw [Option.map_eq_some'] at h
      obtain ⟨ops', hops, rfl⟩ := h
      have hmap := modifyFirst_map_eq (fun e => (e.nonce, e.id)) _ _ _ _ hops
        (fun e => rfl)
      have hlen : ops'.length = s.eth_operations.length := by
        have hcong := congrArg List.length hmap
        simpa using hcong
      show noncesIndexed ops'
      unfold noncesIndexed at hs ⊢
      rw [hmap, hlen]
      exact hs
  | update eth_op_id ddl gas =>
      simp only [applyOp, update_eth_tx] at h
      rw [Option.map_eq_some'] at h
      obtain ⟨ops', hops, rfl⟩ := h
      have hmap := modifyFirst_map_eq (fun e => (e.nonce, e.id)) _ _ _ _ hops
        (fun e => rfl)
      have hlen : ops'.length = s.eth_operations.length := by
        have hcong := congrArg List.length hmap
        simpa using hcong
      show noncesIndexed ops'
      unfold noncesIndexed at hs ⊢
      rw [hmap, hlen]
      exact hs
  | confirm hash =>
      simp only [applyOp, confirm_operation] at h
      rw [Option.map_eq_some'] at h
      obtain ⟨ops', hops, rfl⟩ := h
      have hmap := modifyFirst_map_eq (fun e => (e.nonce, e.id)) _ _ _ _ hops
        (fun e => rfl)
      have hlen : ops'.length = s.eth_operations.length := by
        have hcong := congrArg List.length hmap
        simpa using hcong
      show noncesIndexed ops'
      unfold noncesIndexed at hs ⊢
      rw [hmap, hlen]
      exact hs

theorem runOps_indexed (ops : List DBOp) (s db : MockDatabase)
    (h : runOps s ops = some db) (hs : noncesIndexed s.eth_operations) :
    noncesIndexed db.eth_operations := by
  induction ops generalizing s with
  | nil =>
      simp only [runOps] at h
      injection h with h
      subst h
      exact hs
  | cons o rest ih =>
      simp only [runOps] at h
      cases happ : applyOp s o with
      | none => rw [happ] at h; simp at h
      | some s2 =>
          rw [happ, Option.some_bind] at h
          exact ih s2 h (applyOp_indexed s s2 o happ hs)

end MockDatabase

namespace MockDatabase

/-- C1: starting from an empty operation store, after any sequence of store
mutations (insertions via `save_new_eth_tx`, hash entries, deadline/gas
updates, confirmations in any order), the stored operations' nonces and ids
are exactly the contiguous range `0 .. N-1` in storage order (hence unique,
with no gaps), and a further `save_new_eth_tx` assigns nonce and id equal to
the number of operations already stored. -/
theorem save_new_eth_tx_nonce_contiguous (params : ETHParams) (ops : List DBOp)
    (db : MockDatabase)
    (h : runOps (with_restorable_state [] params) ops = some db) :
    db.eth_operations.map (fun e => (e.nonce, e.id)) =
      (List.range db.eth_operations.length).map (fun k => (Int.ofNat k, Int.ofNat k)) ∧
    (db.eth_operations.map (fun e => e.nonce)).Nodup ∧
    ∀ t o ddl gas data,
      (db.save_new_eth_tx t o ddl gas data).2.nonce = Int.ofNat db.eth_operations.length ∧
      (db.save_new_eth_tx t o ddl gas data).2.id = Int.ofNat db.eth_operations.length := by
  have hidx : noncesIndexed db.eth_operations :=
    runOps_indexed ops (with_restorable_state [] params) db h rfl
  refine ⟨hidx, ?_, fun t o ddl gas data => ⟨rfl, rfl⟩⟩
  have hn : db.eth_operations.map (fun e => e.nonce) =
      (List.range db.eth_operations.length).map (fun k => Int.ofNat k) := by
    have hcong := congrArg (List.map Prod.fst) hidx
    simpa [List.map_map, Function.comp] using hcong
  rw [hn]
  exact List.Nodup.map (fun a b hab => Int.ofNat.inj hab) (List.nodup_range _)

/-- Witness for C1 at the concrete history `opsC1`. -/
theorem save_new_eth_tx_nonce_contiguous_witness :
    dbC1w.eth_operations.map (fun e => (e.nonce, e.id)) =
      (List.range dbC1w.eth_operations.length).map (fun k => (Int.ofNat k, Int.ofNat k)) ∧
    (dbC1w.eth_operations.map (fun e => e.nonce)).Nodup ∧
    ∀ t o ddl gas data,
      (dbC1w.save_new_eth_tx t o ddl gas data).2.nonce = Int.ofNat dbC1w.eth_operations.length ∧
      (dbC1w.save_new_eth_tx t o ddl gas data).2.id = Int.ofNat dbC1w.eth_operations.length :=
  save_new_eth_tx_nonce_contiguous default_eth_parameters opsC1 dbC1w (by decide)

/-- C4: for an operation whose logical reference is present and whose block
range starts at block 1, `is_previous_operation_confirmed` returns `true`
regardless of the stored operations. -/
theorem first_block_admits_immediately (db : MockDatabase) (op : ETHOperation)
    (o : Int × AggregatedOperation) (hop : op.op = some o)
    (hfb : (o.2.get_block_range).1 = 1) :
    db.is_previous_operation_confirmed op = some true := by
  unfold is_previous_operation_confirmed
  rw [hop]
  simp [hfb]

/-- Witness for C4: an execute operation over blocks 1..6 is admitted even
though the stored predecessor candidates are unconfirmed. -/
theorem first_block_admits_immediately_witness :
    dbC3.is_previous_operation_confirmed opExec16 = some true :=
  first_block_admits_immediately dbC3 opExec16 (8, aggExec16) rfl rfl

/-- C8: `load_unconfirmed_operations` returns exactly the stored operations
whose `confirmed` flag is false, in their stored order (a sublist of the
store), and touches no state (it is a pure read of the store). -/
theorem load_unconfirmed_operations_spec (db : MockDatabase) :
    db.load_unconfirmed_operations =
      db.eth_operations.filter (fun e => !e.confirmed) ∧
    db.load_unconfirmed_operations.Sublist db.eth_operations ∧
    ∀ e : ETHOperation, e ∈ db.load_unconfirmed_operations ↔
      e ∈ db.eth_operations ∧ e.confirmed = false := by
  refine ⟨rfl, ?_, fun e => ?_⟩
  · show (db.eth_operations.filter (fun e => !e.confirmed)).Sublist db.eth_operations
    exact List.filter_sublist _
  · unfold load_unconfirmed_operations
    simp [List.mem_filter]

/-- C9: `update_gas_price_params` sets exactly the gas price limit and the
smoothed average gas price in the stored parameters; the nonce and the three
progress counters are unchanged, and no stored operation is modified. -/
theorem update_gas_price_params_frame (db : MockDatabase) (limit avg : Nat)
    (hl : limit ≤ 2 ^ 63 - 1) (ha : avg ≤ 2 ^ 63 - 1) :
    db.update_gas_price_params limit avg =
      some { db with eth_parameters :=
        { db.eth_parameters with gas_price_limit := Int.ofNat limit,
                                 average_gas_price := some (Int.ofNat avg) } } ∧
    ∀ db', db.update_gas_price_params limit avg = some db' →
      db'.eth_operations = db.eth_operations ∧
      db'.unprocessed_operations = db.unprocessed_operations ∧
      db'.eth_parameters.nonce = db.eth_parameters.nonce ∧
      db'.eth_parameters.last_committed_block = db.eth_parameters.last_committed_block ∧
      db'.eth_parameters.last_verified_block = db.eth_parameters.last_verified_block ∧
      db'.eth_parameters.last_executed_block = db.eth_parameters.last_executed_block ∧
      db'.eth_parameters.gas_price_limit = Int.ofNat limit ∧
      db'.eth_parameters.average_gas_price = some (Int.ofNat avg) := by
  have h1 : db.update_gas_price_params limit avg =
      some { db with eth_parameters :=
        { db.eth_parameters with gas_price_limit := Int.ofNat limit,
                                 average_gas_price := some (Int.ofNat avg) } } := by
    unfold update_gas_price_params i64_try_from_u256
    rw [if_pos hl, if_pos ha]
  refine ⟨h1, fun db' hdb' => ?_⟩
  rw [h1] at hdb'
  injection hdb' with hdb'
  subst hdb'
  exact ⟨rfl, rfl, rfl, rfl, rfl, rfl, rfl, rfl⟩

/-- Witness for C9 at a concrete database and values 500 / 120. -/
theorem update_gas_price_params_frame_witness :
    dbC3.update_gas_price_params 500 120 =
      some { dbC3 with eth_parameters :=
        { dbC3.eth_parameters with gas_price_limit := Int.ofNat 500,
                                   average_gas_price := some (Int.ofNat 120) } } ∧
    ∀ db', dbC3.update_gas_price_params 500 120 = some db' →
      db'.eth_operations = dbC3.eth_operations ∧
      db'.unprocessed_operations = dbC3.unprocessed_operations ∧
      db'.eth_parameters.nonce = dbC3.eth_parameters.nonce ∧
      db'.eth_parameters.last_committed_block = dbC3.eth_parameters.last_committed_block ∧
      db'.eth_parameters.last_verified_block = dbC3.eth_parameters.last_verified_block ∧
      db'.eth_parameters.last_executed_block = dbC3.eth_parameters.last_executed_block ∧
      db'.eth_parameters.gas_price_limit = Int.ofNat 500 ∧
      db'.eth_parameters.average_gas_price = some (Int.ofNat 120) :=
  update_gas_price_params_frame dbC3 500 120 (by decide) (by decide)

end MockDatabase

namespace MockDatabase

/-- C5: `confirm_operation` marks the first stored operation whose hash
history contains the given hash as confirmed with `final_hash = some hash`,
leaving every other operation (and the rest of the state) unchanged, and it
aborts on the failed assertion when no stored operation's history contains
the hash. -/
theorem confirm_operation_spec (hash : Nat) :
    (∀ (db : MockDatabase) (pre post : List ETHOperation) (e : ETHOperation),
        db.eth_operations = pre ++ e :: post →
        (∀ x ∈ pre, hash ∉ x.used_tx_hashes) → hash ∈ e.used_tx_hashes →
        db.confirm_operation hash =
          some { db with eth_operations :=
            pre ++ { e with confirmed := true, final_hash := some hash } :: post }) ∧
    (∀ db : MockDatabase, (∀ x ∈ db.eth_operations, hash ∉ x.used_tx_hashes) →
        db.confirm_operation hash = none) := by
  constructor
  · intro db pre post e hsplit hpre he
    have hmods := modifyFirst_append
      (fun operation => operation.used_tx_hashes.contains hash)
      (fun operation => { operation with confirmed := true, final_hash := some hash })
      pre post e (fun x hx => by simpa using hpre x hx) (by simpa using he)
    unfold confirm_operation
    rw [hsplit, hmods]
    rfl
  · intro db hall
    have hnone := modifyFirst_eq_none
      (fun operation => operation.used_tx_hashes.contains hash)
      (fun operation => { operation with confirmed := true, final_hash := some hash })
      db.eth_operations (fun x hx => by simpa using hall x hx)
    unfold confirm_operation
    rw [hnone]
    rfl

/-- Witness for C5: confirming hash 5 updates the second stored operation of
`dbC5`, and confirming it in `dbW` (where no history contains 5) aborts. -/
theorem confirm_operation_spec_witness :
    dbC5.confirm_operation 5 =
      some { dbC5 with eth_operations :=
        [opNoRef] ++ { opH5 with confirmed := true, final_hash := some 5 } :: [] } ∧
    dbW.confirm_operation 5 = none :=
  ⟨(confirm_operation_spec 5).1 dbC5 [opNoRef] [] opH5 rfl (by decide) (by decide),
   (confirm_operation_spec 5).2 dbW (by decide)⟩

/-- C6: `add_hash_entry` and `update_eth_tx` abort when the target id does
not identify a currently-unconfirmed stored operation (every operation with
that id is confirmed, or none exists); when the first such operation
exists, `add_hash_entry` appends exactly the given hash to its history and
`update_eth_tx` sets exactly its deadline block and gas price, leaving all
other operations and state unchanged. -/
theorem mutation_guard_spec (eth_op_id : Int) (hash : Nat) (ddl : Int) (gas : Nat) :
    (∀ db : MockDatabase,
        (∀ x ∈ db.eth_operations, x.id = eth_op_id → x.confirmed = true) →
        db.add_hash_entry eth_op_id hash = none ∧
        db.update_eth_tx eth_op_id ddl gas = none) ∧
    (∀ (db : MockDatabase) (pre post : List ETHOperation) (e : ETHOperation),
        db.eth_operations = pre ++ e :: post →
        (∀ x ∈ pre, x.id = eth_op_id → x.confirmed = true) →
        e.id = eth_op_id → e.confirmed = false →
        db.add_hash_entry eth_op_id hash =
          some { db with eth_operations :=
            pre ++ { e with used_tx_hashes := e.used_tx_hashes ++ [hash] } :: post } ∧
        db.update_eth_tx eth_op_id ddl gas =
          some { db with eth_operations :=
            pre ++ { e with last_deadline_block := (ddl % (2 ^ 64 : Int)).toNat,
                            last_used_gas_price := gas } :: post }) := by
  have hguard : ∀ x : ETHOperation, (x.id = eth_op_id → x.confirmed = true) →
      (x.id == eth_op_id && !x.confirmed) = false := by
    intro x hx
    by_cases hid : x.id = eth_op_id
    · simp [hid, hx hid]
    · simp [hid]
  constructor
  · intro db hall
    constructor
    · have hnone := modifyFirst_eq_none
        (fun eth_op => eth_op.id == eth_op_id && !eth_op.confirmed)
        (fun eth_op => { eth_op with used_tx_hashes := eth_op.used_tx_hashes ++ [hash] })
        db.eth_operations (fun x hx => hguard x (hall x hx))
      unfold add_hash_entry
      rw [hnone]
      rfl
    · have hnone := modifyFirst_eq_none
        (fun eth_op => eth_op.id == eth_op_id && !eth_op.confirmed)
        (fun eth_op =>
          { eth_op with last_deadline_block := (ddl % (2 ^ 64 : Int)).toNat,
                        last_used_gas_price := gas })
        db.eth_operations (fun x hx => hguard x (hall x hx))
      unfold update_eth_tx
      rw [hnone]
      rfl
  · intro db pre post e hsplit hpre hid hconf
    have hpe : (e.id == eth_op_id && !e.confirmed) = true := by
      simp [hid, hconf]
    constructor
    · have hmods := modifyFirst_append
        (fun eth_op => eth_op.id == eth_op_id && !eth_op.confirmed)
        (fun eth_op => { eth_op with used_tx_hashes := eth_op.used_tx_hashes ++ [hash] })
        pre post e (fun x hx => hguard x (hpre x hx)) hpe
      unfold add_hash_entry
      rw [hsplit, hmods]
      rfl
    · have hmods := modifyFirst_append
        (fun eth_op => eth_op.id == eth_op_id && !eth_op.confirmed)
        (fun eth_op =>
          { eth_op with last_deadline_block := (ddl % (2 ^ 64 : Int)).toNat,
                        last_used_gas_price := gas })
        pre post e (fun x hx => hguard x (hpre x hx)) hpe
      unfold update_eth_tx
      rw [hsplit, hmods]
      rfl

/-- Witness for C6: targeting id 1 in `dbW` (whose only id-1 operation is
confirmed) aborts both mutators; targeting id 1 in `dbC6` updates exactly
the second stored operation. -/
theorem mutation_guard_spec_witness :
    (dbW.add_hash_entry 1 3 = none ∧ dbW.update_eth_tx 1 17 55 = none) ∧
    (dbC6.add_hash_entry 1 3 =
      some { dbC6 with eth_operations :=
        [opW0] ++ { opT1 with used_tx_hashes := opT1.used_tx_hashes ++ [3] } :: [] } ∧
     dbC6.update_eth_tx 1 17 55 =
      some { dbC6 with eth_operations :=
        [opW0] ++ { opT1 with last_deadline_block := ((17 : Int) % (2 ^ 64 : Int)).toNat,
                              last_used_gas_price := 55 } :: [] }) :=
  ⟨(mutation_guard_spec 1 3 17 55).1 dbW (by decide),
   (mutation_guard_spec 1 3 17 55).2 dbC6 [opW0] [] opT1 rfl (by decide) rfl rfl⟩

end MockDatabase

namespace MockDatabase

theorem is_prev_eq (db : MockDatabase) (op : ETHOperation)
    (o : Int × AggregatedOperation) (hop : op.op = some o)
    (hfb : (o.2.get_block_range).1 ≠ 1) :
    db.is_previous_operation_confirmed op =
      match findPrev (o.2.get_block_range).1 db.eth_operations with
      | none => none
      | some none => some false
      | some (some operation) => some operation.confirmed := by
  unfold is_previous_operation_confirmed
  rw [hop]
  simp [hfb]

theorem findPrev_cons_none (first_block : Nat) (e : ETHOperation)
    (rest : List ETHOperation) (he : e.op = none) :
    findPrev first_block (e :: rest) = none := by
  simp [findPrev, he]

/-- C3 counterexample: the claim "returns true iff a stored *confirmed*
operation of the declared predecessor kind ends at first−1" fails in both
directions: in `dbC3` such an operation exists (`opVerifyB`) yet the query
answers `some false`, because only the *first* operation ending at block 4
(the unconfirmed `opVerifyA`) is inspected; in `dbC3k` no stored operation
has the declared predecessor kind, yet the query answers `some true`. -/
theorem previous_confirmed_exists_refuted :
    is_previous_operation_confirmed dbC3 opExec56 = some false ∧
    opVerifyB ∈ dbC3.eth_operations ∧
    opVerifyB.confirmed = true ∧
    opVerifyB.op = some (1, aggVerify14) ∧
    declaredPredecessor opExec56.op_type = some aggVerify14.get_action_type ∧
    (aggVerify14.get_block_range).2 = (aggExec56.get_block_range).1 - 1 ∧
    opExec56.op = some (7, aggExec56) ∧
    is_previous_operation_confirmed dbC3k opExec56 = some true ∧
    (∀ x ∈ dbC3k.eth_operations, declaredPredecessor opExec56.op_type ≠ some x.op_type) := by
  decide

/-- C3 amended: for an operation whose reference is present and whose range
starts after block 1, `is_previous_operation_confirmed` returns the
`confirmed` flag of the *first* stored operation — of any action kind —
whose block range ends at first−1 (given the operations before it carry
their references), and `some false` when no stored operation's range ends
there. -/
theorem previous_confirmed_first_match (op : ETHOperation)
    (o : Int × AggregatedOperation) (hop : op.op = some o)
    (hfb : (o.2.get_block_range).1 ≠ 1) :
    (∀ (db : MockDatabase) (pre post : List ETHOperation) (e : ETHOperation)
        (pe : Int × AggregatedOperation),
        db.eth_operations = pre ++ e :: post →
        (∀ x ∈ pre, ∃ px, x.op = some px ∧
          (px.2.get_block_range).2 ≠ (o.2.get_block_range).1 - 1) →
        e.op = some pe → (pe.2.get_block_range).2 = (o.2.get_block_range).1 - 1 →
        db.is_previous_operation_confirmed op = some e.confirmed) ∧
    (∀ db : MockDatabase,
        (∀ x ∈ db.eth_operations, ∃ px, x.op = some px ∧
          (px.2.get_block_range).2 ≠ (o.2.get_block_range).1 - 1) →
        db.is_previous_operation_confirmed op = some false) := by
  constructor
  · intro db pre post e pe hsplit hpre hpe hend
    rw [is_prev_eq db op o hop hfb, hsplit,
      findPrev_skip _ pre (e :: post) hpre,
      findPrev_cons_found _ e post pe hpe hend]
  · intro db hall
    rw [is_prev_eq db op o hop hfb, findPrev_all_miss _ _ hall]

/-- Witness for C3 (amended): on `dbC3` the first operation ending at block
4 is the unconfirmed `opVerifyA`; on `dbC3miss` nothing ends at block 4. -/
theorem previous_confirmed_first_match_witness :
    dbC3.is_previous_operation_confirmed opExec56 = some opVerifyA.confirmed ∧
    dbC3miss.is_previous_operation_confirmed opExec56 = some false :=
  ⟨(previous_confirmed_first_match opExec56 (7, aggExec56) rfl (by decide)).1
      dbC3 [] [opVerifyB] opVerifyA (0, aggVerify14) rfl
      (fun x hx => absurd hx (List.not_mem_nil x)) rfl (by decide),
   (previous_confirmed_first_match opExec56 (7, aggExec56) rfl (by decide)).2
      dbC3miss
      (by
        intro x hx
        have hx' : x ∈ [opVerifyFar] := hx
        rw [List.mem_singleton] at hx'
        subst hx'
        exact ⟨(2, aggVerify19), rfl, by decide⟩)⟩

/-- C10 counterexample: the predecessor search does not panic merely because
*some* stored operation's back-reference is `None`: in `dbC10ok` the stored
`badOp` has no back-reference, yet the query returns a value (`some true`),
because the search short-circuits at the earlier matching `opVerifyB`. -/
theorem none_ref_without_panic :
    badOp ∈ dbC10ok.eth_operations ∧ badOp.op = none ∧
    is_previous_operation_confirmed dbC10ok opExec56 = some true := by
  decide

/-- C10 amended: `is_previous_operation_confirmed` panics when the queried
operation's back-reference is `None`, and the predecessor search panics
exactly when it reaches a stored operation with a `None` back-reference
before finding one whose range ends at first−1 (for a query whose range
starts after block 1). -/
theorem is_prev_panic_conditions :
    (∀ (db : MockDatabase) (op : ETHOperation), op.op = none →
        db.is_previous_operation_confirmed op = none) ∧
    (∀ (db : MockDatabase) (op : ETHOperation) (o : Int × AggregatedOperation)
        (pre post : List ETHOperation) (bad : ETHOperation),
        op.op = some o → (o.2.get_block_range).1 ≠ 1 →
        db.eth_operations = pre ++ bad :: post → bad.op = none →
        (∀ x ∈ pre, ∃ px, x.op = some px ∧
          (px.2.get_block_range).2 ≠ (o.2.get_block_range).1 - 1) →
        db.is_previous_operation_confirmed op = none) := by
  constructor
  · intro db op hop
    unfold is_previous_operation_confirmed
    rw [hop]
  · intro db op o pre post bad hop hfb hsplit hbad hpre
    rw [is_prev_eq db op o hop hfb, hsplit,
      findPrev_skip _ pre (bad :: post) hpre,
      findPrev_cons_none _ bad post hbad]

/-- Witness for C10 (amended): a query with no back-reference panics, and a
query over a store whose first operation lacks a back-reference panics. -/
theorem is_prev_panic_conditions_witness :
    dbC10bad.is_previous_operation_confirmed opNoRef = none ∧
    dbC10bad.is_previous_operation_confirmed opExec56 = none :=
  ⟨is_prev_panic_conditions.1 dbC10bad opNoRef rfl,
   is_prev_panic_conditions.2 dbC10bad opExec56 (7, aggExec56) [] [] badOp rfl
     (by decide) rfl rfl (fun x hx => absurd hx (List.not_mem_nil x))⟩

end MockDatabase

namespace MockDatabase

/-- C2 counterexample: an operation confirmed via hash 1 (so
`final_hash = some 1`) has its `final_hash` overwritten to `some 2` by a
later `confirm_operation` call with hash 2, also contained in its history:
`final_hash` is not immutable after the confirmation transition. -/
theorem final_hash_mutated_after_confirmation :
    runOps (with_restorable_state [] default_eth_parameters) opsC2 = some dbC2 ∧
    (dbC2.eth_operations.map fun e => (e.confirmed, e.final_hash)) = [(true, some 1)] ∧
    applyOp dbC2 (DBOp.confirm 2) = some dbC2' ∧
    (dbC2'.eth_operations.map fun e => (e.confirmed, e.final_hash)) = [(true, some 2)] := by
  exact ⟨by decide, by decide, by decide, by decide⟩

/-- C2 amended: the `confirmed` flag is irreversible (every successful store
mutation keeps a confirmed operation confirmed), and a confirmed operation's
hash history is never mutated again — `add_hash_entry` and `update_eth_tx`
refuse to touch it; the one exception to post-confirmation immutability is
`confirm_operation` itself, which, given another hash contained in the
confirmed operation's history, overwrites `final_hash` with that hash. -/
theorem confirmed_operation_step_frame (db db' : MockDatabase) (o : DBOp) (i : Nat)
    (e : ETHOperation) (happ : applyOp db o = some db')
    (hget : db.eth_operations.get? i = some e) (hc : e.confirmed = true) :
    ∃ e', db'.eth_operations.get? i = some e' ∧ e'.confirmed = true ∧
      e'.used_tx_hashes = e.used_tx_hashes ∧
      (e' = e ∨ ∃ h2, o = DBOp.confirm h2 ∧ h2 ∈ e.used_tx_hashes ∧
        e' = { e with confirmed := true, final_hash := some h2 }) := by
  cases o with
  | save t op ddl gas data =>
      simp only [applyOp] at happ
      injection happ with happ
      subst happ
      have hi : i < db.eth_operations.length := by
        rcases List.get?_eq_some.mp hget with ⟨hi, _⟩
        exact hi
      refine ⟨e, ?_, hc, rfl, Or.inl rfl⟩
      show (db.eth_operations ++ [_]).get? i = some e
      rw [List.get?_append hi]
      exact hget
  | addHash eth_op_id hash =>
      simp only [applyOp, add_hash_entry] at happ
      rw [Option.map_eq_some'] at happ
      obtain ⟨ops', hops, rfl⟩ := happ
      rcases modifyFirst_get _ _ _ _ i e hops hget with h1 | ⟨hpe, _⟩
      · exact ⟨e, h1, hc, rfl, Or.inl rfl⟩
      · rw [hc] at hpe
        simp at hpe
  | update eth_op_id ddl gas =>
      simp only [applyOp, update_eth_tx] at happ
      rw [Option.map_eq_some'] at happ
      obtain ⟨ops', hops, rfl⟩ := happ
      rcases modifyFirst_get _ _ _ _ i e hops hget with h1 | ⟨hpe, _⟩
      · exact ⟨e, h1, hc, rfl, Or.inl rfl⟩
      · rw [hc] at hpe
        simp at hpe
  | confirm h2 =>
      simp only [applyOp, confirm_operation] at happ
      rw [Option.map_eq_some'] at happ
      obtain ⟨ops', hops, rfl⟩ := happ
      rcases modifyFirst_get _ _ _ _ i e hops hget with h1 | ⟨hpe, hfe⟩
      · exact ⟨e, h1, hc, rfl, Or.inl rfl⟩
      · exact ⟨_, hfe, rfl, rfl, Or.inr ⟨h2, rfl, by simpa using hpe, rfl⟩⟩

/-- Witness for C2 (amended) at the concrete step `add_hash_entry 0 3` on
`dbW`, whose operation at index 1 is confirmed. -/
theorem confirmed_operation_step_frame_witness :
    ∃ e', dbW'.eth_operations.get? 1 = some e' ∧ e'.confirmed = true ∧
      e'.used_tx_hashes = opW1.used_tx_hashes ∧
      (e' = opW1 ∨ ∃ h2, DBOp.addHash 0 3 = DBOp.confirm h2 ∧ h2 ∈ opW1.used_tx_hashes ∧
        e' = { opW1 with confirmed := true, final_hash := some h2 }) :=
  confirmed_operation_step_frame dbW dbW' (DBOp.addHash 0 3) 1 opW1 (by decide)
    (by decide) rfl

end MockDatabase

/-- C7 counterexample: the harness configuration sets the escalation scale
factor to 1.0, which is not strictly greater than 1.0, so a resubmission
priced below the ceiling keeps the gas price unchanged (it neither strictly
increases nor sits at the ceiling). -/
theorem scale_factor_not_greater_one :
    ¬ 1 < build_eth_sender_scale_factor ∧
    scale_gas_price 100 build_eth_sender_scale_factor build_eth_sender_gas_price_limit = 100 ∧
    scale_gas_price 100 build_eth_sender_scale_factor build_eth_sender_gas_price_limit ≠
      build_eth_sender_gas_price_limit := by
  refine ⟨by norm_num [build_eth_sender_scale_factor], ?_, ?_⟩
  · unfold scale_gas_price build_eth_sender_scale_factor build_eth_sender_gas_price_limit
    rw [mul_one]
    exact min_eq_left (by norm_num)
  · unfold scale_gas_price build_eth_sender_scale_factor build_eth_sender_gas_price_limit
    rw [mul_one, min_eq_left (by norm_num : (100 : ℚ) ≤ 1000)]
    norm_num

/-- C7 amended: for a resubmission the new gas price is the previous price
multiplied by the configured scale factor and capped at the configured
ceiling; with the harness's scale factor of 1.0 the price is therefore
non-decreasing (constant below the ceiling) and never exceeds the
ceiling. -/
theorem scale_gas_price_bounded (previous : ℚ)
    (hle : previous ≤ build_eth_sender_gas_price_limit) :
    scale_gas_price previous build_eth_sender_scale_factor build_eth_sender_gas_price_limit ≤
      build_eth_sender_gas_price_limit ∧
    previous ≤
      scale_gas_price previous build_eth_sender_scale_factor build_eth_sender_gas_price_limit := by
  unfold scale_gas_price build_eth_sender_scale_factor
  rw [mul_one]
  exact ⟨min_le_right _ _, le_min le_rfl hle⟩

/-- Witness for C7 (amended) at a previous price of 100 against the 1000
ceiling. -/
theorem scale_gas_price_bounded_witness :
    scale_gas_price 100 build_eth_sender_scale_factor build_eth_sender_gas_price_limit ≤
      build_eth_sender_gas_price_limit ∧
    (100 : ℚ) ≤
      scale_gas_price 100 build_eth_sender_scale_factor build_eth_sender_gas_price_limit :=
  scale_gas_price_bounded 100 (by norm_num [build_eth_sender_gas_price_limit])
